import Mathlib

/-!
# Verification of the context retention / status synthesis engine

Shallow embedding, in Lean 4, of the core of the `discord-status-bot`
repository: the relevance-decay model, the context filter, the
personal-state tracker (`src/llm/context.js`), the LLM output
validation/repair step (`src/llm/processor.js`) and the KV storage layer
(`src/storage/kv.js`, `src/storage/activity.js`).

JavaScript numbers are modelled as `ℚ` (the claims under study do not
depend on floating-point rounding), JS strings as `String`, absent /
`undefined` fields as `Option`, and the JS `Date` parser as an explicit
`parseTime : String → Option ℚ` parameter (epoch milliseconds), since the
source only ever branches on whether parsing succeeded and on the parsed
value.
-/

namespace StatusBot

/-- The semantic categories used by the relevance model
(`relevanceFactors` in `src/llm/context.js`, lines 26-35). -/
inductive Category where
  | physical | emotional | activity | event | state | need | achievement | default
deriving DecidableEq, Repr

/-- The category-specific linear-decay span, in hours: the divisor used in
each entry of the `relevanceFactors` object (`context.js` lines 26-35). -/
def halfLifeHours : Category → ℚ
  | .physical => 6
  | .emotional => 12
  | .activity => 36
  | .event => 24
  | .state => 12
  | .need => 8
  | .achievement => 48
  | .default => 18

/-- One entry of the `relevanceFactors` object:
`Math.max(0, 1 - (hoursDifference / d))` with the category's divisor
(`context.js` lines 26-35). -/
def relevanceFactor (c : Category) (hoursDifference : ℚ) : ℚ :=
  max 0 (1 - hoursDifference / halfLifeHours c)

theorem halfLifeHours_pos (c : Category) : 0 < halfLifeHours c := by
  cases c <;> norm_num [halfLifeHours]

/-- C1: for every category and every non-negative elapsed time the
relevance model assigns `max 0 (1 - hoursElapsed / halfLifeHours)` with
the category-specific spans physical=6, emotional=12, state=12, event=24,
activity=36, need=8, achievement=48, default=18; the score is 1 at 0,
non-increasing in the elapsed time, and 0 from the span onwards. -/
theorem relevance_model_linear_decay (c : Category) (h h₁ h₂ : ℚ)
    (hmono : h₁ ≤ h₂) :
    relevanceFactor c h = max 0 (1 - h / halfLifeHours c) ∧
    (halfLifeHours .physical = 6 ∧ halfLifeHours .emotional = 12 ∧
     halfLifeHours .state = 12 ∧ halfLifeHours .event = 24 ∧
     halfLifeHours .activity = 36 ∧ halfLifeHours .need = 8 ∧
     halfLifeHours .achievement = 48 ∧ halfLifeHours .default = 18) ∧
    relevanceFactor c 0 = 1 ∧
    relevanceFactor c h₂ ≤ relevanceFactor c h₁ ∧
    (halfLifeHours c ≤ h → relevanceFactor c h = 0) := by
  have hpos := halfLifeHours_pos c
  refine ⟨rfl, ⟨rfl, rfl, rfl, rfl, rfl, rfl, rfl, rfl⟩, ?_, ?_, ?_⟩
  · simp [relevanceFactor]
  · apply max_le_max le_rfl
    have hdiv : h₁ / halfLifeHours c ≤ h₂ / halfLifeHours c :=
      div_le_div_of_nonneg_right hmono hpos.le
    linarith
  · intro hge
    have h1 : (1 : ℚ) ≤ h / halfLifeHours c := (one_le_div hpos).mpr hge
    simp only [relevanceFactor, max_eq_left_iff]
    linarith

/-- Witness for `relevance_model_linear_decay` at category `physical`,
elapsed times 0 ≤ 3 ≤ 7. -/
theorem relevance_model_linear_decay_witness :
    relevanceFactor .physical 7 = max 0 (1 - 7 / halfLifeHours .physical) ∧
    (halfLifeHours .physical = 6 ∧ halfLifeHours .emotional = 12 ∧
     halfLifeHours .state = 12 ∧ halfLifeHours .event = 24 ∧
     halfLifeHours .activity = 36 ∧ halfLifeHours .need = 8 ∧
     halfLifeHours .achievement = 48 ∧ halfLifeHours .default = 18) ∧
    relevanceFactor .physical 0 = 1 ∧
    relevanceFactor .physical 3 ≤ relevanceFactor .physical 0 ∧
    (halfLifeHours .physical ≤ 7 → relevanceFactor .physical 7 = 0) :=
  relevance_model_linear_decay .physical 7 0 3 (by norm_num)

/-! ## Data model (`src/llm/context.js` schema objects)

Only the fields that the scoring / filtering / reconciliation code reads
are carried; the JS spread `{ ...x, relevance_score }` preserves all other
payload fields unchanged, so they are irrelevant to every claim. `Option`
models an absent (`undefined`) field; for `PersonalState.level` the
embedded value is the result of `parseInt(level, 10)` (`none` = `NaN`). -/

/-- JS truthiness of an optional string field (`undefined` and `""` are
falsy). -/
def truthy : Option String → Bool
  | none => false
  | some s => s ≠ ""

/-- JS `String.prototype.includes` (substring test). -/
def strContains (s t : String) : Bool := decide (t.data <:+: s.data)

structure Metric where
  name : Option String
  value : Option String
  relevance_score : Option ℚ
deriving DecidableEq, Repr

structure Highlight where
  type : Option String
  description : Option String
  relevance_score : Option ℚ
deriving DecidableEq, Repr

structure ContextItem where
  description : Option String
  relevance_score : Option ℚ
deriving DecidableEq, Repr

structure PersonalState where
  name : Option String
  level : Option Int
  time_since_last : Option String
  trend : Option String
deriving DecidableEq, Repr

structure ProcessedStatus where
  metrics : List Metric
  highlights : List Highlight
  persistent_context : List ContextItem
  personal_states : List PersonalState
deriving DecidableEq, Repr

structure StoredStatusEntry where
  timestamp : Option String
  raw_input : Option String
  processed_status : Option ProcessedStatus
deriving DecidableEq, Repr

/-! ## Relevance scoring (`calculateContextRelevance`, context.js 9-94) -/

/-- Keyword-based metric categorization (`context.js` lines 40-51):
`metric.name?.toLowerCase() || ''` matched against keyword sets. -/
def metricCategory (name : Option String) : Category :=
  let nameLower := (name.getD "").toLower
  if ["energy", "hunger", "sleep", "tired", "physical"].any
      (fun t => strContains nameLower t) then .physical
  else if ["focus", "mood", "stress", "feeling"].any
      (fun t => strContains nameLower t) then .emotional
  else if ["project", "work", "task", "progress", "coding", "writing"].any
      (fun t => strContains nameLower t) then .activity
  else .default

/-- String lookup into the `relevanceFactors` object. -/
def categoryOfKey : String → Option Category
  | "physical" => some .physical
  | "emotional" => some .emotional
  | "activity" => some .activity
  | "event" => some .event
  | "state" => some .state
  | "need" => some .need
  | "achievement" => some .achievement
  | "default" => some .default
  | _ => none

/-- `relevanceFactors[type] || relevanceFactors.default` (context.js lines
55, 65): JS `||` falls back to the default score when the key is absent
*or* when the looked-up score is `0` (a falsy number). -/
def factorOrDefault (h : ℚ) (key : String) : ℚ :=
  match categoryOfKey key with
  | none => relevanceFactor .default h
  | some c =>
    if relevanceFactor c h = 0 then relevanceFactor .default h
    else relevanceFactor c h

/-- `highlight.type?.toLowerCase() || 'default'` (context.js line 62). -/
def highlightKey (type : Option String) : String :=
  let k := (type.getD "").toLower
  if k = "" then "default" else k

/-- The `relevanceFactors` key named by the `type` variable of the metric
loop (context.js lines 40-55). -/
def metricKey (name : Option String) : String :=
  match metricCategory name with
  | .physical => "physical"
  | .emotional => "emotional"
  | .activity => "activity"
  | _ => "default"

/-- `calculateContextRelevance` (context.js lines 9-94). `parseTime`
stands for `new Date(·).getTime()` in epoch milliseconds (`none` = `NaN`)
and `nowMs` for `new Date()` at the time of the call. -/
def calculateContextRelevance (parseTime : String → Option ℚ) (nowMs : ℚ) :
    Option StoredStatusEntry → Option StoredStatusEntry
  | none => none
  | some prev =>
    match prev.timestamp, prev.processed_status with
    | some ts, some ps =>
      if ts = "" then none
      else
        match parseTime ts with
        | none => some prev
        | some prevMs =>
          let hoursDifference := |nowMs - prevMs| / (1000 * 60 * 60)
          some { prev with
            processed_status := some { ps with
              metrics := ps.metrics.map (fun m =>
                { m with
                  relevance_score :=
                    some (factorOrDefault hoursDifference (metricKey m.name)) }),
              highlights := ps.highlights.map (fun hl =>
                { hl with
                  relevance_score :=
                    some (factorOrDefault hoursDifference (highlightKey hl.type)) }),
              persistent_context := ps.persistent_context.map (fun c =>
                { c with
                  relevance_score :=
                    some (relevanceFactor .activity hoursDifference) }) } }
    | _, _ => none

/-! ## Context filter (`filterRelevantContext`, context.js 103-139) -/

/-- Threshold normalization (context.js lines 108-111): a non-number
(`none`) or a number outside `[0,1]` is replaced by the default `0.3`. -/
def normalizeThreshold : Option ℚ → ℚ
  | none => 3/10
  | some t => if t < 0 ∨ 1 < t then 3/10 else t

/-- The retention predicate of each `.filter` call (context.js lines
114-121): `typeof x.relevance_score === 'number' && x.relevance_score >=
threshold`. -/
def keepScore (threshold : ℚ) : Option ℚ → Bool
  | none => false
  | some r => decide (threshold ≤ r)

/-- `filterRelevantContext` (context.js lines 103-139). -/
def filterRelevantContext (ctx : Option StoredStatusEntry)
    (threshold : Option ℚ) : Option StoredStatusEntry :=
  match ctx with
  | none => none
  | some c =>
    match c.processed_status with
    | none => none
    | some ps =>
      let t := normalizeThreshold threshold
      some { c with processed_status := some { ps with
        metrics := ps.metrics.filter (fun m => keepScore t m.relevance_score),
        highlights := ps.highlights.filter (fun h => keepScore t h.relevance_score),
        persistent_context :=
          ps.persistent_context.filter (fun p => keepScore t p.relevance_score) } }

theorem keepScore_iff (t : ℚ) (r : Option ℚ) :
    keepScore t r = true ↔ ∃ v, r = some v ∧ t ≤ v := by
  cases r <;> simp [keepScore]

/-- C2: an element of `metrics`, `highlights` or `persistent_context` is
retained by the context filter iff it carries a numeric `relevance_score`
that is at least the threshold, where a missing (non-number) threshold or
one outside `[0,1]` is first replaced by the default `0.3`. -/
theorem filter_retains_iff (c : StoredStatusEntry) (ps : ProcessedStatus)
    (threshold : Option ℚ) (hps : c.processed_status = some ps) :
    ∃ out ps', filterRelevantContext (some c) threshold = some out ∧
      out.processed_status = some ps' ∧
      (∀ m, m ∈ ps'.metrics ↔ m ∈ ps.metrics ∧
        ∃ r, m.relevance_score = some r ∧ normalizeThreshold threshold ≤ r) ∧
      (∀ h, h ∈ ps'.highlights ↔ h ∈ ps.highlights ∧
        ∃ r, h.relevance_score = some r ∧ normalizeThreshold threshold ≤ r) ∧
      (∀ p, p ∈ ps'.persistent_context ↔ p ∈ ps.persistent_context ∧
        ∃ r, p.relevance_score = some r ∧ normalizeThreshold threshold ≤ r) ∧
      ((threshold = none ∨ ∃ t, threshold = some t ∧ (t < 0 ∨ 1 < t)) →
        normalizeThreshold threshold = 3/10) := by
  refine ⟨{ c with
            processed_status := some { ps with
              metrics := ps.metrics.filter
                (fun m => keepScore (normalizeThreshold threshold) m.relevance_score),
              highlights := ps.highlights.filter
                (fun h => keepScore (normalizeThreshold threshold) h.relevance_score),
              persistent_context := ps.persistent_context.filter
                (fun p => keepScore (normalizeThreshold threshold) p.relevance_score) } },
          _, by simp [filterRelevantContext, hps], rfl, ?_, ?_, ?_, ?_⟩
  · intro m
    simp [List.mem_filter, keepScore_iff]
  · intro h
    simp [List.mem_filter, keepScore_iff]
  · intro p
    simp [List.mem_filter, keepScore_iff]
  · rintro (rfl | ⟨t, rfl, ht⟩)
    · rfl
    · simp [normalizeThreshold, if_pos ht]

/-- Example scored snapshot used to instantiate the filter theorems: one
metric above and one below the default threshold, one unscored metric. -/
def exScoredPS : ProcessedStatus :=
  { metrics := [⟨some "Energy", some "Low", some (1/2)⟩,
                ⟨some "Focus", some "High", some (1/10)⟩,
                ⟨some "Mood", none, none⟩],
    highlights := [⟨some "activity", some "Working", some (7/10)⟩],
    persistent_context := [⟨some "Ongoing project", some (1/5)⟩],
    personal_states := [] }

def exScoredEntry : StoredStatusEntry :=
  { timestamp := some "2025-04-28T15:00:00Z",
    raw_input := some "tired but working",
    processed_status := some exScoredPS }

/-- Witness for `filter_retains_iff`: the example snapshot filtered with
the out-of-range threshold `2` (normalized to the default `0.3`). -/
theorem filter_retains_iff_witness :
    ∃ out ps', filterRelevantContext (some exScoredEntry) (some 2) = some out ∧
      out.processed_status = some ps' ∧
      (∀ m, m ∈ ps'.metrics ↔ m ∈ exScoredPS.metrics ∧
        ∃ r, m.relevance_score = some r ∧ normalizeThreshold (some 2) ≤ r) ∧
      (∀ h, h ∈ ps'.highlights ↔ h ∈ exScoredPS.highlights ∧
        ∃ r, h.relevance_score = some r ∧ normalizeThreshold (some 2) ≤ r) ∧
      (∀ p, p ∈ ps'.persistent_context ↔ p ∈ exScoredPS.persistent_context ∧
        ∃ r, p.relevance_score = some r ∧ normalizeThreshold (some 2) ≤ r) ∧
      ((some 2 = (none : Option ℚ) ∨
          ∃ t : ℚ, (some 2 : Option ℚ) = some t ∧ (t < 0 ∨ 1 < t)) →
        normalizeThreshold (some 2) = 3/10) :=
  filter_retains_iff exScoredEntry exScoredPS (some 2) rfl

/-- Unscored snapshot whose timestamp does not parse: input for the C6
counterexample. -/
def c6PS : ProcessedStatus :=
  { metrics := [⟨some "Energy", some "Low", none⟩],
    highlights := [⟨some "activity", some "Working", none⟩],
    persistent_context := [⟨some "Ongoing project", none⟩],
    personal_states := [] }

def c6Entry : StoredStatusEntry :=
  { timestamp := some "not-a-date",
    raw_input := some "hello",
    processed_status := some c6PS }

/-- C6, counterexample: with an unparseable timestamp the relevance model
does return the snapshot unmodified, but the subsequent context filter
then removes every (unscored) element — the items are *not* kept. -/
theorem unscored_items_are_dropped_cex :
    calculateContextRelevance (fun _ => none) 0 (some c6Entry) = some c6Entry ∧
    filterRelevantContext (some c6Entry) (some (3/10)) =
      some { c6Entry with
              processed_status := some { c6PS with
                metrics := [], highlights := [], persistent_context := [] } } ∧
    c6PS.metrics ≠ [] ∧ c6PS.highlights ≠ [] ∧ c6PS.persistent_context ≠ [] := by
  refine ⟨rfl, rfl, ?_, ?_, ?_⟩ <;> decide

/-- C6 as amended: if the previous snapshot's source timestamp is
unparseable, the relevance model returns the input snapshot unmodified
(adding no scores, throwing nothing); but the subsequent context filter
drops unscored items: every element it retains carries a numeric
`relevance_score`. -/
theorem unparseable_timestamp_unmodified (parseTime : String → Option ℚ)
    (nowMs : ℚ) (prev : StoredStatusEntry) (ts : String) (ps : ProcessedStatus)
    (th : Option ℚ)
    (hts : prev.timestamp = some ts) (hne : ts ≠ "")
    (hps : prev.processed_status = some ps) (hparse : parseTime ts = none) :
    calculateContextRelevance parseTime nowMs (some prev) = some prev ∧
    ∀ out ps', filterRelevantContext (some prev) th = some out →
      out.processed_status = some ps' →
      (∀ m ∈ ps'.metrics, m.relevance_score ≠ none) ∧
      (∀ h ∈ ps'.highlights, h.relevance_score ≠ none) ∧
      (∀ p ∈ ps'.persistent_context, p.relevance_score ≠ none) := by
  constructor
  · simp [calculateContextRelevance, hts, hps, hne, hparse]
  · intro out ps' hout hps'
    simp only [filterRelevantContext, hps, Option.some.injEq] at hout
    subst hout
    simp only [Option.some.injEq] at hps'
    subst hps'
    refine ⟨?_, ?_, ?_⟩ <;>
      · intro x hx
        have := (List.mem_filter.mp hx).2
        rcases (keepScore_iff _ _).mp this with ⟨v, hv, _⟩
        simp [hv]

/-- Witness for `unparseable_timestamp_unmodified` at the concrete
unscored snapshot `c6Entry`. -/
theorem unparseable_timestamp_unmodified_witness :
    calculateContextRelevance (fun _ => none) 0 (some c6Entry) = some c6Entry ∧
    ∀ out ps', filterRelevantContext (some c6Entry) (some (1/2)) = some out →
      out.processed_status = some ps' →
      (∀ m ∈ ps'.metrics, m.relevance_score ≠ none) ∧
      (∀ h ∈ ps'.highlights, h.relevance_score ≠ none) ∧
      (∀ p ∈ ps'.persistent_context, p.relevance_score ≠ none) :=
  unparseable_timestamp_unmodified (fun _ => none) 0 c6Entry "not-a-date" c6PS
    (some (1/2)) rfl (by decide) rfl rfl

/-! ## Personal-state tracker (`updatePersonalStateTimes`, context.js
142-255)

The wall-clock dependent helper `getTimeSinceUpdate` (lines 149-168)
produces a human-readable gap string from `Date.now()`; its result is
passed here as the explicit argument `timeSinceUpdateStr`, which is `none`
exactly when `previousTimestampISO` is falsy (line 210). -/

/-- `updateTimeElapsed` (context.js lines 176-187): the placeholder string
"addition" — concatenation with `" + "` unless the previous value is falsy
or `'just now'`. -/
def updateTimeElapsed (prevTimeStr additionalTimeStr : String) : String :=
  if prevTimeStr ≠ "" ∧ prevTimeStr ≠ "just now" then
    prevTimeStr ++ " + " ++ additionalTimeStr
  else if prevTimeStr ≠ "" then prevTimeStr
  else if additionalTimeStr ≠ "" then additionalTimeStr
  else "unknown"

/-- The `prevStateMap` lookup (context.js lines 203-208): states without a
truthy `name` are skipped and `Map.set` keeps the *last* entry per name. -/
def prevStateLookup (previousStates : List PersonalState) (n : String) :
    Option PersonalState :=
  ((previousStates.filter (fun s => truthy s.name)).reverse).find?
    (fun s => s.name == some n)

/-- Trend computation (context.js lines 224-231): both levels must parse
(`parseInt`) to compare, otherwise the trend stays `'stable'`. -/
def trendOf : Option Int → Option Int → String
  | some currentLevel, some prevLevel =>
    if prevLevel < currentLevel then "increasing"
    else if currentLevel < prevLevel then "decreasing"
    else "stable"
  | _, _ => "stable"

/-- The body of the `currentStates.map` callback (context.js lines
213-254). -/
def updateOnePersonalState (previousStates : List PersonalState)
    (timeSinceUpdateStr : Option String) (currentState : PersonalState) :
    PersonalState :=
  match currentState.name with
  | none => currentState
  | some n =>
    if n = "" then currentState
    else
      match prevStateLookup previousStates n with
      | none => { currentState with trend := some "new" }
      | some prevState =>
        let updatedState :=
          { currentState with
            trend := some (trendOf currentState.level prevState.level) }
        if !(truthy updatedState.time_since_last) &&
            truthy prevState.time_since_last && truthy timeSinceUpdateStr then
          { updatedState with
            time_since_last :=
              some (updateTimeElapsed (prevState.time_since_last.getD "")
                (timeSinceUpdateStr.getD "")) }
        else updatedState

/-- `updatePersonalStateTimes` (context.js lines 198-255). -/
def updatePersonalStateTimes (previousStates currentStates : List PersonalState)
    (timeSinceUpdateStr : Option String) : List PersonalState :=
  currentStates.map (updateOnePersonalState previousStates timeSinceUpdateStr)

/-- The no-previous-snapshot branch of `processStatusUpdate`
(src/api/status.js lines 244-248): every current personal state's trend is
set to `'new'`. -/
def tagAllStatesNew (states : List PersonalState) : List PersonalState :=
  states.map (fun s => { s with trend := some "new" })

theorem updateOne_trend (previousStates : List PersonalState)
    (t : Option String) (c p : PersonalState) (n : String)
    (hn : c.name = some n) (hne : n ≠ "")
    (hp : prevStateLookup previousStates n = some p) :
    (updateOnePersonalState previousStates t c).trend =
      some (trendOf c.level p.level) := by
  simp only [updateOnePersonalState, hn, hne, if_false, hp]
  split <;> rfl

theorem trendOf_increasing_iff (a b : Option Int) :
    trendOf a b = "increasing" ↔ ∃ cl pl, a = some cl ∧ b = some pl ∧ pl < cl := by
  rcases a with _ | cl <;> rcases b with _ | pl <;> simp [trendOf]
  split_ifs <;> simp_all

theorem trendOf_decreasing_iff (a b : Option Int) :
    trendOf a b = "decreasing" ↔ ∃ cl pl, a = some cl ∧ b = some pl ∧ cl < pl := by
  rcases a with _ | cl <;> rcases b with _ | pl <;> simp [trendOf]
  split_ifs with h1 h2 <;> simp_all
  omega

theorem trendOf_stable_iff (a b : Option Int) :
    trendOf a b = "stable" ↔
      (a = none ∨ b = none ∨ ∃ l, a = some l ∧ b = some l) := by
  rcases a with _ | cl <;> rcases b with _ | pl <;> simp [trendOf]
  split_ifs with h1 h2 <;> simp_all <;> omega

/-- C3: a current state whose (truthy) name matches a previous state gets
trend `increasing` iff both levels are numeric and the current one is
larger, `decreasing` iff both numeric and smaller, `stable` iff the levels
are equal or either is non-numeric; an unmatched current state — in
particular any state when no previous snapshot exists — gets trend
`new`. -/
theorem trend_correctness (previousStates currentStates : List PersonalState)
    (t : Option String) (c : PersonalState) (n : String)
    (hn : c.name = some n) (hne : n ≠ "") :
    updatePersonalStateTimes previousStates currentStates t =
      currentStates.map (updateOnePersonalState previousStates t) ∧
    (prevStateLookup previousStates n = none →
      (updateOnePersonalState previousStates t c).trend = some "new") ∧
    (∀ p, prevStateLookup previousStates n = some p →
      ((updateOnePersonalState previousStates t c).trend = some "increasing" ↔
        ∃ cl pl, c.level = some cl ∧ p.level = some pl ∧ pl < cl) ∧
      ((updateOnePersonalState previousStates t c).trend = some "decreasing" ↔
        ∃ cl pl, c.level = some cl ∧ p.level = some pl ∧ cl < pl) ∧
      ((updateOnePersonalState previousStates t c).trend = some "stable" ↔
        (c.level = none ∨ p.level = none ∨
          ∃ l, c.level = some l ∧ p.level = some l))) ∧
    (∀ s ∈ tagAllStatesNew currentStates, s.trend = some "new") := by
  refine ⟨rfl, ?_, ?_, ?_⟩
  · intro hnone
    simp [updateOnePersonalState, hn, hne, hnone]
  · intro p hp
    have htr := updateOne_trend previousStates t c p n hn hne hp
    rw [htr]
    simp only [Option.some.injEq]
    exact ⟨trendOf_increasing_iff _ _, trendOf_decreasing_iff _ _,
      trendOf_stable_iff _ _⟩
  · intro s hs
    simp only [tagAllStatesNew, List.mem_map] at hs
    obtain ⟨s₀, _, rfl⟩ := hs
    rfl

/-- Previous and current personal states of spec example scenario 5. -/
def c5PrevState : PersonalState :=
  ⟨some "Hunger", some 4, some "4h ago", some "stable"⟩

def c5CurrState : PersonalState :=
  ⟨some "Hunger", some 1, none, none⟩

/-- Witness for `trend_correctness` at the Hunger 4 → 1 example. -/
theorem trend_correctness_witness :
    updatePersonalStateTimes [c5PrevState] [c5CurrState] (some "30m") =
      [c5CurrState].map (updateOnePersonalState [c5PrevState] (some "30m")) ∧
    (prevStateLookup [c5PrevState] "Hunger" = none →
      (updateOnePersonalState [c5PrevState] (some "30m") c5CurrState).trend =
        some "new") ∧
    (∀ p, prevStateLookup [c5PrevState] "Hunger" = some p →
      ((updateOnePersonalState [c5PrevState] (some "30m") c5CurrState).trend =
          some "increasing" ↔
        ∃ cl pl, c5CurrState.level = some cl ∧ p.level = some pl ∧ pl < cl) ∧
      ((updateOnePersonalState [c5PrevState] (some "30m") c5CurrState).trend =
          some "decreasing" ↔
        ∃ cl pl, c5CurrState.level = some cl ∧ p.level = some pl ∧ cl < pl) ∧
      ((updateOnePersonalState [c5PrevState] (some "30m") c5CurrState).trend =
          some "stable" ↔
        (c5CurrState.level = none ∨ p.level = none ∨
          ∃ l, c5CurrState.level = some l ∧ p.level = some l))) ∧
    (∀ s ∈ tagAllStatesNew [c5CurrState], s.trend = some "new") :=
  trend_correctness [c5PrevState] [c5CurrState] (some "30m") c5CurrState
    "Hunger" rfl (by decide)

theorem append_plus_ne_just_now (a b : String) :
    a ++ " + " ++ b ≠ "just now" := by
  intro h
  have hmem : '+' ∈ (a ++ " + " ++ b).data := by
    simp [String.data_append]
  rw [h] at hmem
  simp at hmem

theorem updateTimeElapsed_eq_just_now (ps ts : String)
    (hps : ps ≠ "") (h : updateTimeElapsed ps ts = "just now") :
    ps = "just now" := by
  by_contra hne
  rw [updateTimeElapsed, if_pos ⟨hps, hne⟩] at h
  exact append_plus_ne_just_now _ _ h

/-- C5: for a matched personal state, a `time_since_last` supplied by the
current update is used verbatim; if the current update omits it but the
previous state had one and the previous-snapshot gap string is available,
the output is `updateTimeElapsed previous gap` — which never yields
`'just now'` unless the previous value already was `'just now'`; if the
previous state had no value either, the field is left as it was
(unset). -/
theorem time_reconciliation (previousStates : List PersonalState)
    (t : Option String) (c p : PersonalState) (n : String)
    (hn : c.name = some n) (hne : n ≠ "")
    (hp : prevStateLookup previousStates n = some p) :
    (∀ s, c.time_since_last = some s → s ≠ "" →
      (updateOnePersonalState previousStates t c).time_since_last = some s) ∧
    (∀ ps ts, truthy c.time_since_last = false → p.time_since_last = some ps →
      ps ≠ "" → t = some ts → ts ≠ "" →
      (updateOnePersonalState previousStates t c).time_since_last =
        some (updateTimeElapsed ps ts) ∧
      (updateTimeElapsed ps ts = "just now" → ps = "just now")) ∧
    (truthy c.time_since_last = false → truthy p.time_since_last = false →
      (updateOnePersonalState previousStates t c).time_since_last =
        c.time_since_last) := by
  refine ⟨?_, ?_, ?_⟩
  · intro s hs hsne
    have htr : truthy (some s) = true := by simp [truthy, hsne]
    simp [updateOnePersonalState, hn, hne, hp, htr, hs]
  · intro ps ts hct hpt hpsne ht htsne
    subst ht
    have h1 : truthy p.time_since_last = true := by simp [truthy, hpt, hpsne]
    have h2 : truthy (some ts) = true := by simp [truthy, htsne]
    have h3 : truthy (some ps) = true := by simp [truthy, hpsne]
    refine ⟨?_, updateTimeElapsed_eq_just_now ps ts hpsne⟩
    simp [updateOnePersonalState, hn, hne, hp, hct, h1, h2, h3, hpt]
  · intro hct hpt
    simp [updateOnePersonalState, hn, hne, hp, hct, hpt]

/-- Witness for `time_reconciliation` at the Hunger example: previous
`"4h ago"`, current update omits the field, gap `"30m"`. -/
theorem time_reconciliation_witness :
    (∀ s, c5CurrState.time_since_last = some s → s ≠ "" →
      (updateOnePersonalState [c5PrevState] (some "30m")
        c5CurrState).time_since_last = some s) ∧
    (∀ ps ts, truthy c5CurrState.time_since_last = false →
      c5PrevState.time_since_last = some ps →
      ps ≠ "" → some "30m" = some ts → ts ≠ "" →
      (updateOnePersonalState [c5PrevState] (some "30m")
        c5CurrState).time_since_last = some (updateTimeElapsed ps ts) ∧
      (updateTimeElapsed ps ts = "just now" → ps = "just now")) ∧
    (truthy c5CurrState.time_since_last = false →
      truthy c5PrevState.time_since_last = false →
      (updateOnePersonalState [c5PrevState] (some "30m")
        c5CurrState).time_since_last = c5CurrState.time_since_last) :=
  time_reconciliation [c5PrevState] (some "30m") c5CurrState c5PrevState
    "Hunger" rfl (by decide) rfl

/-! ## KV storage: status history (`src/storage/kv.js` 165-212)

The two KV keys owned by one user's status storage,
`user:<id>:status_history` and `user:<id>:latest_status`, are modelled as
one record; `history = none` models an absent key (or one without a
`history` array). Only the successful path is modelled (valid `userId`,
`processedStatus` and binding, no I/O error); entries are kept abstract in
`α` since `storeUserStatus` never inspects them. -/

structure UserStatusStore (α : Type) where
  history : Option (List α)
  latest : Option α
deriving DecidableEq, Repr

/-- The last `n` elements of a list (the result of
`history.slice(history.length - limit)`). -/
def lastN (n : Nat) (l : List α) : List α := l.drop (l.length - n)

/-- `storeUserStatus` (kv.js lines 165-212): read the history (defaulting
to `[]`), push the new entry, trim to the last `historyLimit` entries when
`historyLimit > 0 && history.length > historyLimit`, then write the
history key and overwrite the latest key. -/
def storeUserStatus (st : UserStatusStore α) (entry : α) (historyLimit : Nat) :
    UserStatusStore α :=
  let history := st.history.getD []
  let history := history ++ [entry]
  let history :=
    if 0 < historyLimit ∧ historyLimit < history.length then
      history.drop (history.length - historyLimit)
    else history
  { history := some history, latest := some entry }

/-- A sequence of status updates for the same user, oldest first. -/
def storeSequence (st : UserStatusStore α) (entries : List α)
    (historyLimit : Nat) : UserStatusStore α :=
  entries.foldl (fun s e => storeUserStatus s e historyLimit) st

theorem storeUserStatus_history (st : UserStatusStore α) (e : α) (C : Nat)
    (hC : 0 < C) :
    (storeUserStatus st e C).history = some (lastN C (st.history.getD [] ++ [e])) := by
  simp only [storeUserStatus, lastN]
  split
  · rfl
  · rename_i hcond
    rcases not_and_or.mp hcond with h | h
    · omega
    · push_neg at h
      simp only [List.length_append, List.length_cons, List.length_nil] at h ⊢
      rw [show (st.history.getD []).length + (0 + 1) - C = 0 by omega, List.drop_zero]

theorem lastN_append_right (n : Nat) (l m : List α) (h : n ≤ m.length) :
    lastN n (l ++ m) = lastN n m := by
  unfold lastN
  rw [List.length_append, show l.length + m.length - n = l.length + (m.length - n) by omega,
    List.drop_append]

theorem lastN_append_lastN (n : Nat) (l m : List α) :
    lastN n (lastN n l ++ m) = lastN n (l ++ m) := by
  rcases le_or_lt l.length n with h | h
  · simp [lastN, Nat.sub_eq_zero_of_le h]
  · have h' : n ≤ (List.drop (l.length - n) l ++ m).length := by
      simp
      omega
    conv_rhs => rw [← List.take_append_drop (l.length - n) l, List.append_assoc,
      lastN_append_right n _ _ h']
    rfl

theorem storeSequence_history (C : Nat) (hC : 0 < C) :
    ∀ (es : List α) (st : UserStatusStore α) (e : α),
      (storeSequence st (e :: es) C).history =
        some (lastN C (st.history.getD [] ++ e :: es)) := by
  intro es
  induction es with
  | nil =>
    intro st e
    exact storeUserStatus_history st e C hC
  | cons e' es ih =>
    intro st e
    show (storeSequence (storeUserStatus st e C) (e' :: es) C).history = _
    rw [ih, storeUserStatus_history st e C hC]
    simp only [Option.getD_some]
    rw [lastN_append_lastN, List.append_assoc]
    rfl

/-- C7: starting from a fresh user, after storing the entries `es` (with
`es.length > C > 0`) the stored history is exactly the last `C` entries of
`es`, in their original insertion order, and has length exactly `C`. -/
theorem history_cap_invariant {α : Type} (es : List α) (C : Nat)
    (hC : 0 < C) (hN : C < es.length) :
    (storeSequence ⟨none, none⟩ es C).history = some (es.drop (es.length - C)) ∧
    (es.drop (es.length - C)).length = C := by
  constructor
  · match es, hN with
    | e :: es', hN =>
      rw [storeSequence_history C hC es' ⟨none, none⟩ e]
      rfl
  · rw [List.length_drop]
    omega

/-- Witness for `history_cap_invariant`: five stores with cap three keep
exactly the last three entries. -/
theorem history_cap_invariant_witness :
    (storeSequence ⟨none, none⟩ [1, 2, 3, 4, 5] 3).history =
      some ([1, 2, 3, 4, 5].drop ([1, 2, 3, 4, 5].length - 3)) ∧
    (([1, 2, 3, 4, 5] : List Nat).drop ([1, 2, 3, 4, 5].length - 3)).length = 3 :=
  history_cap_invariant [1, 2, 3, 4, 5] 3 (by decide) (by decide)

/-- C8: after every store, the latest pointer holds the newly created
entry and equals the last element of the stored history. -/
theorem latest_eq_history_last {α : Type} (st : UserStatusStore α) (e : α)
    (C : Nat) :
    (storeUserStatus st e C).latest = some e ∧
    ((storeUserStatus st e C).history.getD []).getLast? = some e ∧
    (storeUserStatus st e C).latest =
      ((storeUserStatus st e C).history.getD []).getLast? := by
  have hlast : ((storeUserStatus st e C).history.getD []).getLast? = some e := by
    simp only [storeUserStatus]
    split
    · rename_i hcond
      simp only [Option.getD_some]
      rw [List.drop_append_of_le_length (by simp; omega), List.getLast?_append_cons]
      rfl
    · simp
  exact ⟨rfl, hlast, hlast.symm⟩

/-! ## KV storage: purge (`purgeUserData`, src/storage/activity.js 376-484)

The whole KV namespace is modelled as an association list from key to
stored value; for purging only an activity's `creator` field is ever
inspected, so every other stored value is collapsed to `.other`. -/

inductive KVValue where
  | activity (creator : Option String)
  | other
deriving DecidableEq, Repr

abbrev KVStore := List (String × KVValue)

/-- `activityData && activityData.creator === userId` (activity.js line
405). -/
def isActivityOf (u : String) : KVValue → Bool
  | .activity (some c) => c == u
  | _ => false

/-- The user-owned key prefixes (activity.js lines 382-387). -/
def userKeyPrefixes (userId : String) : List String :=
  ["user:" ++ userId ++ ":", "profile:" ++ userId, "log:interactions:" ++ userId]

def matchesUserPrefix (userId k : String) : Bool :=
  (userKeyPrefixes userId).any (fun p => p.isPrefixOf k)

/-- Step 1 (activity.js lines 394-420): the names of the `activity:` keys
whose stored object was created by the user. -/
def activityKeysOf (u : String) (kv : KVStore) : List String :=
  (kv.filter (fun p => "activity:".isPrefixOf p.1 && isActivityOf u p.2)).map
    Prod.fst

/-- The store left after steps 2 and 3 (activity.js lines 422-475): all
user-prefixed keys and all identified activity keys deleted. -/
def purgedStore (u : String) (kv : KVStore) : KVStore :=
  (kv.filter (fun p => !(matchesUserPrefix u p.1))).filter
    (fun p => !(decide (p.1 ∈ activityKeysOf u kv)))

/-- `deletedCount`: every delete call on a listed key counts (activity.js
lines 439-449 and 465-474). -/
def purgeCount (u : String) (kv : KVStore) : Nat :=
  (kv.filter (fun p => matchesUserPrefix u p.1)).length +
    (activityKeysOf u kv).length

/-- `purgeUserData` (activity.js lines 376-484): the only `throw` on the
modelled path is the missing-argument guard (line 378). -/
def purgeUserData (userId : String) (kv : KVStore) :
    Except String (Nat × KVStore) :=
  if userId = "" then
    .error "Missing userId or kvStore binding for purgeUserData."
  else .ok (purgeCount userId kv, purgedStore userId kv)

theorem activityKeysOf_purgedStore (u : String) (kv : KVStore) :
    activityKeysOf u (purgedStore u kv) = [] := by
  unfold activityKeysOf purgedStore
  rw [List.map_eq_nil_iff, List.filter_eq_nil_iff]
  intro p hp
  rcases List.mem_filter.mp hp with ⟨hp2, hnotdel⟩
  rcases List.mem_filter.mp hp2 with ⟨hpkv, _⟩
  intro hpred
  have hmem : p.1 ∈ activityKeysOf u kv := by
    exact List.mem_map_of_mem Prod.fst (List.mem_filter.mpr ⟨hpkv, hpred⟩)
  simp [hmem] at hnotdel

theorem purgeCount_purgedStore (u : String) (kv : KVStore) :
    purgeCount u (purgedStore u kv) = 0 := by
  unfold purgeCount
  rw [activityKeysOf_purgedStore]
  simp only [List.length_nil, Nat.add_zero, List.length_eq_zero]
  rw [List.filter_eq_nil_iff]
  intro p hp
  have hp2 := List.mem_filter.mp hp
  have hno := (List.mem_filter.mp hp2.1).2
  simp only [Bool.not_eq_true'] at hno
  simp [hno]

/-- C9: for a valid user id, purging never throws, and purging again right
after a purge again succeeds and removes zero records (the user's data is
already gone). The returned count is a `Nat`, hence non-negative. -/
theorem purge_idempotent (u : String) (kv : KVStore) (hu : u ≠ "") :
    ∃ c₁ kv₁ kv₂, purgeUserData u kv = .ok (c₁, kv₁) ∧
      purgeUserData u kv₁ = .ok (0, kv₂) := by
  refine ⟨purgeCount u kv, purgedStore u kv, purgedStore u (purgedStore u kv),
    ?_, ?_⟩
  · simp [purgeUserData, hu]
  · simp [purgeUserData, hu, purgeCount_purgedStore]

/-- Witness for `purge_idempotent` on a small concrete store for user
`alice`. -/
theorem purge_idempotent_witness :
    ∃ c₁ kv₁ kv₂,
      purgeUserData "alice"
        [("user:alice:status_history", .other),
         ("activity:act_1", .activity (some "alice")),
         ("activity:act_2", .activity (some "bob")),
         ("profile:bob", .other)] = .ok (c₁, kv₁) ∧
      purgeUserData "alice" kv₁ = .ok (0, kv₂) :=
  purge_idempotent "alice"
    [("user:alice:status_history", .other),
     ("activity:act_1", .activity (some "alice")),
     ("activity:act_2", .activity (some "bob")),
     ("profile:bob", .other)] (by decide)

/-! ## JSON (`JSON.parse` as used by `validateAndRepairStatusJSON`,
src/llm/processor.js 535-576)

JSON values are modelled exactly; numbers as rationals (the claims under
study never depend on IEEE-754 rounding of parsed literals). The parser
below follows the JSON grammar accepted by `JSON.parse`: optional
whitespace (space, tab, LF, CR), then one value, then optional trailing
whitespace, rejecting anything else. Recursion is fuelled; `jsonParse`
supplies fuel that dominates the recursion depth for its input. -/

inductive Json where
  | null
  | bool (b : Bool)
  | num (q : ℚ)
  | str (s : String)
  | arr (elems : List Json)
  | obj (fields : List (String × Json))
deriving Repr

/-- Characters written via code to satisfy the source layout. -/
def backtick : Char := Char.ofNat 0x60

def openBrace : Char := Char.ofNat 0x7b

def closeBrace : Char := Char.ofNat 0x7d

def openBracket : Char := Char.ofNat 0x5b

def closeBracket : Char := Char.ofNat 0x5d

/-- JSON whitespace (space, horizontal tab, line feed, carriage return). -/
def isJsonWs (c : Char) : Bool :=
  decide (c.toNat = 0x20 ∨ c.toNat = 0x09 ∨ c.toNat = 0x0a ∨ c.toNat = 0x0d)

def skipJsonWs (cs : List Char) : List Char := cs.dropWhile isJsonWs

def isJsonDigit (c : Char) : Bool := decide (0x30 ≤ c.toNat ∧ c.toNat ≤ 0x39)

def digitsToNat (ds : List Char) : Nat :=
  ds.foldl (fun a c => a * 10 + (c.toNat - 0x30)) 0

def hexVal (c : Char) : Option Nat :=
  if isJsonDigit c then some (c.toNat - 0x30)
  else if 0x41 ≤ c.toNat ∧ c.toNat ≤ 0x46 then some (c.toNat - 0x41 + 10)
  else if 0x61 ≤ c.toNat ∧ c.toNat ≤ 0x66 then some (c.toNat - 0x61 + 10)
  else none

/-- The fractional digits of a number literal, if a fraction is present. -/
def parseFrac : List Char → Option (List Char × List Char)
  | c :: r =>
    if c = '.' then
      match r.takeWhile isJsonDigit with
      | [] => none
      | ds => some (ds, r.dropWhile isJsonDigit)
    else some ([], c :: r)
  | [] => some ([], [])

/-- The signed exponent of a number literal, if an exponent is present. -/
def parseExp : List Char → Option (ℤ × List Char)
  | c :: r =>
    if c = 'e' ∨ c = 'E' then
      let signAndRest : ℤ × List Char :=
        match r with
        | s :: rr => if s = '+' then (1, rr) else if s = '-' then (-1, rr) else (1, r)
        | [] => (1, [])
      match (signAndRest.2).takeWhile isJsonDigit with
      | [] => none
      | ds => some (signAndRest.1 * (digitsToNat ds : ℤ),
          (signAndRest.2).dropWhile isJsonDigit)
    else some (0, c :: r)
  | [] => some (0, [])

/-- A JSON number literal: `-? (0 | [1-9][0-9]*) frac? exp?`. -/
def parseNumber (cs : List Char) : Option (Json × List Char) :=
  let signAndRest : Bool × List Char :=
    match cs with
    | c :: r => if c = '-' then (true, r) else (false, cs)
    | [] => (false, [])
  let neg := signAndRest.1
  let cs1 := signAndRest.2
  match cs1.takeWhile isJsonDigit with
  | [] => none
  | intDigits =>
    if 1 < intDigits.length ∧ intDigits.head? = some '0' then none
    else
      let rest := cs1.dropWhile isJsonDigit
      match parseFrac rest with
      | none => none
      | some (fracDigits, rest2) =>
        match parseExp rest2 with
        | none => none
        | some (expVal, rest3) =>
          let mantissa : ℚ := (digitsToNat intDigits : ℚ) +
            (digitsToNat fracDigits : ℚ) / (10 : ℚ) ^ fracDigits.length
          some (.num ((if neg then -mantissa else mantissa) * (10 : ℚ) ^ expVal),
            rest3)

/-- The body of a JSON string after the opening quote, handling the JSON
escape sequences; control characters below U+0020 are rejected. -/
def parseStringRest : Nat → List Char → Option (String × List Char)
  | 0, _ => none
  | _ + 1, [] => none
  | fuel + 1, c :: rest =>
    if c = '"' then some ("", rest)
    else if c = '\\' then
      match rest with
      | [] => none
      | e :: rest2 =>
        let dec? : Option (Char × List Char) :=
          if e = '"' then some ('"', rest2)
          else if e = '\\' then some ('\\', rest2)
          else if e = '/' then some ('/', rest2)
          else if e = 'b' then some ('\x08', rest2)
          else if e = 'f' then some ('\x0c', rest2)
          else if e = 'n' then some ('\n', rest2)
          else if e = 'r' then some ('\r', rest2)
          else if e = 't' then some ('\t', rest2)
          else if e = 'u' then
            match rest2 with
            | h1 :: h2 :: h3 :: h4 :: rest3 =>
              match hexVal h1, hexVal h2, hexVal h3, hexVal h4 with
              | some a, some b, some c3, some d =>
                some (Char.ofNat (((a * 16 + b) * 16 + c3) * 16 + d), rest3)
              | _, _, _, _ => none
            | _ => none
          else none
        match dec? with
        | none => none
        | some (ch, rest') =>
          match parseStringRest fuel rest' with
          | none => none
          | some (s, r) => some (String.mk (ch :: s.data), r)
    else if c.toNat < 0x20 then none
    else
      match parseStringRest fuel rest with
      | none => none
      | some (s, r) => some (String.mk (c :: s.data), r)

/-- The grammar production being parsed: one JSON value; an object body
(after `{`, whitespace skipped); an object member list; an array body
(after `[`, whitespace skipped); an array element list. -/
inductive PMode where
  | value | objectBody | members | arrayBody | elements
deriving DecidableEq, Repr

/-- The recursive core of the JSON grammar, one fuelled function so that
it reduces definitionally. `value` dispatches on the first character;
member/element lists recurse after each comma. -/
def parseF : Nat → PMode → List Char → Option (Json × List Char)
  | 0, _, _ => none
  | fuel + 1, .value, cs =>
    match cs with
    | [] => none
    | c :: rest =>
      if c = openBrace then parseF fuel .objectBody (skipJsonWs rest)
      else if c = openBracket then parseF fuel .arrayBody (skipJsonWs rest)
      else if c = '"' then
        match parseStringRest fuel rest with
        | some (s, r) => some (.str s, r)
        | none => none
      else if c = 't' then
        if rest.take 3 = ['r', 'u', 'e'] then some (.bool true, rest.drop 3)
        else none
      else if c = 'f' then
        if rest.take 4 = ['a', 'l', 's', 'e'] then some (.bool false, rest.drop 4)
        else none
      else if c = 'n' then
        if rest.take 3 = ['u', 'l', 'l'] then some (.null, rest.drop 3) else none
      else if c = '-' ∨ isJsonDigit c then parseNumber (c :: rest)
      else none
  | fuel + 1, .objectBody, cs =>
    match cs with
    | c :: rest =>
      if c = closeBrace then some (.obj [], rest)
      else parseF fuel .members (c :: rest)
    | [] => none
  | fuel + 1, .members, cs =>
    match cs with
    | c :: rest =>
      if c = '"' then
        match parseStringRest fuel rest with
        | none => none
        | some (key, r1) =>
          match skipJsonWs r1 with
          | colon :: r2 =>
            if colon = ':' then
              match parseF fuel .value (skipJsonWs r2) with
              | none => none
              | some (v, r3) =>
                match skipJsonWs r3 with
                | sep :: r4 =>
                  if sep = ',' then
                    match parseF fuel .members (skipJsonWs r4) with
                    | some (.obj fields, r5) => some (.obj ((key, v) :: fields), r5)
                    | _ => none
                  else if sep = closeBrace then some (.obj [(key, v)], r4)
                  else none
                | [] => none
            else none
          | [] => none
      else none
    | [] => none
  | fuel + 1, .arrayBody, cs =>
    match cs with
    | c :: rest =>
      if c = closeBracket then some (.arr [], rest)
      else parseF fuel .elements (c :: rest)
    | [] => none
  | fuel + 1, .elements, cs =>
    match parseF fuel .value cs with
    | none => none
    | some (v, r1) =>
      match skipJsonWs r1 with
      | sep :: r2 =>
        if sep = ',' then
          match parseF fuel .elements (skipJsonWs r2) with
          | some (.arr elems, r3) => some (.arr (v :: elems), r3)
          | _ => none
        else if sep = closeBracket then some (.arr [v], r2)
        else none
      | [] => none

/-- `JSON.parse`: whitespace, one value, trailing whitespace, nothing
else. The fuel dominates the recursion depth for any input of this
length. -/
def jsonParse (s : String) : Option Json :=
  match parseF (4 * s.length + 8) .value (skipJsonWs s.data) with
  | some (v, rest) => if skipJsonWs rest = [] then some v else none
  | none => none

/-! ## The repair regex (processor.js line 551)

`/```json\s*([\s\S]*?)\s*```|(\{[\s\S]*\})/` under JS leftmost-match
semantics: scan positions left to right, try the fenced alternative, then
the braced alternative. In the fenced alternative, backtracking of the
greedy `\s*`s resolves so that group 1 consists of the characters between
the maximal whitespace run after the fence opener and the earliest
position from which (optional whitespace then) a closing fence follows.
The braced alternative spans from the first `{` to the last `}` of the
input (`[\s\S]*` is greedy). -/

/-- The JS `\s` class (also used by `String.prototype.trim`). -/
def isJsWs (c : Char) : Bool :=
  decide (c.toNat = 0x20 ∨ c.toNat = 0x09 ∨ c.toNat = 0x0a ∨ c.toNat = 0x0b ∨
    c.toNat = 0x0c ∨ c.toNat = 0x0d ∨ c.toNat = 0xa0 ∨ c.toNat = 0x1680 ∨
    (0x2000 ≤ c.toNat ∧ c.toNat ≤ 0x200a) ∨ c.toNat = 0x2028 ∨
    c.toNat = 0x2029 ∨ c.toNat = 0x202f ∨ c.toNat = 0x205f ∨
    c.toNat = 0x3000 ∨ c.toNat = 0xfeff)

/-- `String.prototype.trim`. -/
def trimJs (s : String) : String :=
  String.mk (((s.data.dropWhile isJsWs).reverse.dropWhile isJsWs).reverse)

/-- The literal `` ```json `` fence opener. -/
def fenceOpen : List Char := [backtick, backtick, backtick, 'j', 's', 'o', 'n']

/-- The literal `` ``` `` fence closer. -/
def fenceClose : List Char := [backtick, backtick, backtick]

/-- Does `\s*```` ``` `` match a prefix of `cs` (for some amount of the
leading whitespace, which is all the backtracked `\s*` can reach)? -/
def closedByFence : List Char → Bool
  | [] => false
  | c :: rest =>
    if fenceClose.isPrefixOf (c :: rest) then true
    else if isJsWs c then closedByFence rest
    else false

/-- The lazy group `([\s\S]*?)`: the shortest prefix of `cs` after which
`\s*``` ` closes the fence. -/
def lazyGroup : List Char → Option (List Char)
  | [] => none
  | c :: rest =>
    if closedByFence (c :: rest) then some []
    else (lazyGroup rest).map (fun g => c :: g)

/-- The fenced alternative at a position already known to start with
`` ```json ``: skip the greedy `\s*`, then take the lazy group. -/
def fencedAlt (cs : List Char) : Option String :=
  let afterWs := (cs.drop fenceOpen.length).dropWhile isJsWs
  (lazyGroup afterWs).map (fun g => String.mk g)

/-- The braced alternative `(\{[\s\S]*\})` at a position starting with
`{`: greedily spans to the last `}` of the remaining input. -/
def bracedAlt (cs : List Char) : Option String :=
  match cs.reverse.dropWhile (fun c => !(c == closeBrace)) with
  | [] => none
  | r => some (String.mk r.reverse)

/-- The leftmost match of the repair regex: `(group1?, group2?)`. -/
def regexScan : List Char → Option (Option String × Option String)
  | [] => none
  | c :: rest =>
    if fenceOpen.isPrefixOf (c :: rest) then
      match fencedAlt (c :: rest) with
      | some g => some (some g, none)
      | none => regexScan rest
    else if c = openBrace then
      match bracedAlt (c :: rest) with
      | some g => some (none, some g)
      | none => regexScan rest
    else regexScan rest

/-- `jsonMatch[1] || jsonMatch[2]` followed by `if (extractedJson)`
(processor.js lines 551-555): the extracted block, unless the match's
relevant group is falsy (absent or empty). -/
def regexExtract (s : String) : Option String :=
  match regexScan s.data with
  | none => none
  | some (g1, g2) =>
    match (if truthy g1 then g1 else g2) with
    | some g => if g = "" then none else some g
    | none => none

/-! ## `createDefaultStatus` and `validateAndRepairStatusJSON`
(processor.js lines 535-618) -/

/-- `createDefaultStatus` (processor.js lines 585-618); the local
`fallbackSummary` (line 587) is dead — the returned object never uses it.
The emoji strings are the source file's literal characters. -/
def createDefaultStatus (text : String) (reason : String) : Json :=
  let _fallbackSummary :=
    "Status update received, but automatic analysis failed (" ++ reason ++
      "). Original text: \"" ++ text.take 150 ++
      (if 150 < text.length then "..." else "") ++ "\""
  Json.obj
    [("overall_status", .str "Analysis Failed"),
     ("mood_emoji", .str "‚ö†Ô∏è"),
     ("visual_theme", .str "default"),
     ("accent_color", .str "#FEE75C"),
     ("metrics", .arr
       [.obj [("name", .str "Processing Status"),
              ("value", .str "Failed"),
              ("value_rating", .num 1),
              ("trend", .str "new"),
              ("icon", .str "‚öôÔ∏è")]]),
     ("highlights", .arr
       [.obj [("type", .str "state"),
              ("description",
                .str ("Failed to analyze status update. Reason: " ++ reason)),
              ("timeframe", .str "current"),
              ("is_new", .bool true)]]),
     ("persistent_context", .arr []),
     ("narrative_summary", .str ("Analysis failed. " ++ reason)),
     ("errors", .arr [.str ("LLM Processing Error: " ++ reason)]),
     ("personal_states", .arr [])]

/-- `validateAndRepairStatusJSON` (processor.js lines 535-576): empty or
whitespace-only input falls back immediately; a successful direct parse is
returned as-is; otherwise the repair regex extracts a candidate block
which is parsed and returned as-is on success; all remaining cases fall
back, each with its distinguishing reason. -/
def validateAndRepairStatusJSON (jsonString originalText : String) : Json :=
  if trimJs jsonString = "" then
    createDefaultStatus originalText "LLM returned empty response."
  else
    match jsonParse jsonString with
    | some parsed => parsed
    | none =>
      match regexExtract jsonString with
      | some extractedJson =>
        match jsonParse extractedJson with
        | some repairedParsed => repairedParsed
        | none => createDefaultStatus originalText "LLM response was malformed JSON."
      | none =>
        createDefaultStatus originalText "LLM response did not contain valid JSON."

/-! ## StatusSnapshot shape (spec §3) as a predicate on parsed JSON -/

/-- JS property access on a parsed object (`undefined` when missing; the
last duplicate key wins, as in `JSON.parse`). -/
def jsObjGet (j : Json) (k : String) : Option Json :=
  match j with
  | .obj fields => (fields.reverse.find? (fun p => p.1 == k)).map Prod.snd
  | _ => none

/-- Is field `k` present and an array? -/
def isArrayField (j : Json) (k : String) : Bool :=
  match jsObjGet j k with
  | some (.arr _) => true
  | _ => false

/-- The required array fields of a StatusSnapshot are all present. -/
def isStatusSnapshotShape (j : Json) : Bool :=
  isArrayField j "metrics" && isArrayField j "highlights" &&
    isArrayField j "persistent_context" && isArrayField j "personal_states" &&
    isArrayField j "errors"

/-- Does the value carry a non-empty `errors` array? -/
def errorsNonempty (j : Json) : Bool :=
  match jsObjGet j "errors" with
  | some (.arr (_ :: _)) => true
  | _ => false

theorem dropWhile_head_false {p : Char → Bool} {l r : List Char} {c : Char}
    (h : l.dropWhile p = c :: r) : p c = false := by
  induction l with
  | nil => simp [List.dropWhile] at h
  | cons a as ih =>
    rw [List.dropWhile_cons] at h
    split at h
    · exact ih h
    · rename_i hpa
      obtain ⟨rfl, -⟩ := List.cons.inj h
      simpa using hpa

theorem trimJs_eq_empty_iff (s : String) :
    trimJs s = "" ↔ ∀ c ∈ s.data, isJsWs c = true := by
  constructor
  · intro h c hc
    have hl : ((s.data.dropWhile isJsWs).reverse.dropWhile isJsWs).reverse = [] := by
      have := congrArg String.data h
      simpa [trimJs] using this
    rw [List.reverse_eq_nil_iff, List.dropWhile_eq_nil_iff] at hl
    rw [← List.takeWhile_append_dropWhile (p := isJsWs) (l := s.data)] at hc
    rcases List.mem_append.mp hc with h1 | h1
    · exact List.mem_takeWhile_imp h1
    · exact hl c (List.mem_reverse.mpr h1)
  · intro h
    have h1 : s.data.dropWhile isJsWs = [] :=
      List.dropWhile_eq_nil_iff.mpr (fun c hc => h c hc)
    simp [trimJs, h1]

theorem parseF_value_jsws_none (fuel : Nat) (c : Char) (rest : List Char)
    (h1 : isJsWs c = true) (h2 : isJsonWs c = false) :
    parseF fuel .value (c :: rest) = none := by
  have hn : c.toNat = 0xb ∨ c.toNat = 0xc ∨ c.toNat = 0xa0 ∨
      c.toNat = 0x1680 ∨ (0x2000 ≤ c.toNat ∧ c.toNat ≤ 0x200a) ∨
      c.toNat = 0x2028 ∨ c.toNat = 0x2029 ∨ c.toNat = 0x202f ∨
      c.toNat = 0x205f ∨ c.toNat = 0x3000 ∨ c.toNat = 0xfeff := by
    simp only [isJsWs, decide_eq_true_eq] at h1
    simp only [isJsonWs, decide_eq_false_iff_not] at h2
    omega
  have hob : c ≠ openBrace := by
    intro h
    subst h
    revert hn
    decide
  have hobk : c ≠ openBracket := by
    intro h
    subst h
    revert hn
    decide
  have hq : c ≠ '"' := by
    intro h
    subst h
    revert hn
    decide
  have ht : c ≠ 't' := by
    intro h
    subst h
    revert hn
    decide
  have hf : c ≠ 'f' := by
    intro h
    subst h
    revert hn
    decide
  have hnn : c ≠ 'n' := by
    intro h
    subst h
    revert hn
    decide
  have hnum : ¬(c = '-' ∨ isJsonDigit c = true) := by
    rintro (h | h)
    · subst h
      revert hn
      decide
    · simp only [isJsonDigit, decide_eq_true_eq] at h
      omega
  cases fuel with
  | zero => rfl
  | succ fuel =>
    simp only [parseF]
    rw [if_neg hob, if_neg hobk, if_neg hq, if_neg ht, if_neg hf, if_neg hnn,
      if_neg hnum]

theorem jsonParse_trim_ne (s : String) (v : Json) (h : jsonParse s = some v) :
    trimJs s ≠ "" := by
  intro htr
  have hall := (trimJs_eq_empty_iff s).mp htr
  rw [jsonParse] at h
  cases hsk : skipJsonWs s.data with
  | nil =>
    rw [hsk] at h
    cases hfuel : (4 * s.length + 8) with
    | zero => rw [hfuel] at h; simp [parseF] at h
    | succ n => rw [hfuel] at h; simp [parseF] at h
  | cons c r =>
    have hcmem : c ∈ s.data := by
      have hsub : skipJsonWs s.data ⊆ s.data := (List.dropWhile_sublist _).subset
      exact hsub (hsk ▸ List.mem_cons_self c r)
    have hcw : isJsWs c = true := hall c hcmem
    have hcj : isJsonWs c = false := dropWhile_head_false hsk
    rw [hsk, parseF_value_jsws_none _ c r hcw hcj] at h
    simp at h

theorem regexScan_all_ws :
    ∀ cs : List Char, (∀ c ∈ cs, isJsWs c = true) → regexScan cs = none := by
  intro cs
  induction cs with
  | nil => intro _; rfl
  | cons c rest ih =>
    intro h
    have hc := h c (List.mem_cons_self c rest)
    have hb : fenceOpen.isPrefixOf (c :: rest) = false := by
      have hne : (backtick == c) = false := by
        rw [beq_eq_false_iff_ne]
        intro heq
        rw [← heq] at hc
        exact absurd hc (by decide)
      simp [fenceOpen, List.isPrefixOf, hne]
    have hob : c ≠ openBrace := by
      intro heq
      rw [heq] at hc
      exact absurd hc (by decide)
    simp only [regexScan, hb, Bool.false_eq_true, if_false, if_neg hob]
    exact ih (fun x hx => h x (List.mem_cons_of_mem c hx))

theorem regexExtract_trim_ne (s : String) (e : String)
    (h : regexExtract s = some e) : trimJs s ≠ "" := by
  intro htr
  have hall := (trimJs_eq_empty_iff s).mp htr
  rw [regexExtract, regexScan_all_ws s.data hall] at h
  simp at h

/-- C10: a successful parse — direct, or of the regex-extracted block —
is returned exactly as parsed: no schema validation, no defaulting of
missing array fields, no `errors` entries added, whatever shape (or
non-object) the parsed value has. -/
theorem parsed_value_returned_unvalidated :
    (∀ s orig v, jsonParse s = some v →
      validateAndRepairStatusJSON s orig = v) ∧
    (∀ s orig e v, jsonParse s = none → regexExtract s = some e →
      jsonParse e = some v → validateAndRepairStatusJSON s orig = v) := by
  constructor
  · intro s orig v h
    have htr := jsonParse_trim_ne s v h
    simp only [validateAndRepairStatusJSON, if_neg htr, h]
  · intro s orig e v hnone hext hparse
    have htr := regexExtract_trim_ne s e hext
    simp only [validateAndRepairStatusJSON, if_neg htr, hnone, hext, hparse]

/-- Witness for `parsed_value_returned_unvalidated`: a non-object direct
parse (`true`) and a brace-extracted empty object, both returned bare. -/
theorem parsed_value_returned_unvalidated_witness :
    validateAndRepairStatusJSON "true" "orig" = Json.bool true ∧
    validateAndRepairStatusJSON "pre \x7b\x7d post" "orig" = Json.obj [] :=
  ⟨parsed_value_returned_unvalidated.1 "true" "orig" (Json.bool true) rfl,
   parsed_value_returned_unvalidated.2 "pre \x7b\x7d post" "orig" "\x7b\x7d"
     (Json.obj []) rfl rfl rfl⟩

/-- C4, counterexample: the input `` ```json\n{}\n``` `` — JSON embedded
in markdown fencing — makes the Validation/Repair step return the bare
empty object, which has none of the required StatusSnapshot array fields
and no `errors` entry. -/
theorem fallback_totality_cex :
    validateAndRepairStatusJSON "```json\n\x7b\x7d\n```" "hello" = Json.obj [] ∧
    isStatusSnapshotShape (Json.obj []) = false ∧
    errorsNonempty (Json.obj []) = false :=
  ⟨rfl, rfl, rfl⟩

/-- C4 as amended: whenever a fallback path is taken — empty or
whitespace-only input, a failed direct parse with no (truthy) extractable
block, or a failed parse of the extracted block — the result is the
deterministic default status, which satisfies the full StatusSnapshot
shape and carries a non-empty `errors` array. (Successful parses are
returned as parsed, without shape guarantees.) -/
theorem fallback_totality_amended (s orig : String)
    (hfb : trimJs s = "" ∨ (jsonParse s = none ∧
      ∀ e, regexExtract s = some e → jsonParse e = none)) :
    isStatusSnapshotShape (validateAndRepairStatusJSON s orig) = true ∧
    errorsNonempty (validateAndRepairStatusJSON s orig) = true := by
  have hshape : ∀ r, isStatusSnapshotShape (createDefaultStatus orig r) = true :=
    fun r => rfl
  have herr : ∀ r, errorsNonempty (createDefaultStatus orig r) = true :=
    fun r => rfl
  rcases hfb with htr | ⟨hparse, hext⟩
  · simp only [validateAndRepairStatusJSON, if_pos htr]
    exact ⟨hshape _, herr _⟩
  · by_cases htr : trimJs s = ""
    · simp only [validateAndRepairStatusJSON, if_pos htr]
      exact ⟨hshape _, herr _⟩
    · simp only [validateAndRepairStatusJSON, if_neg htr, hparse]
      cases hre : regexExtract s with
      | none => exact ⟨hshape _, herr _⟩
      | some e =>
        simp only [hext e hre]
        exact ⟨hshape _, herr _⟩

/-- Witness for `fallback_totality_amended` at the empty input. -/
theorem fallback_totality_amended_witness :
    isStatusSnapshotShape (validateAndRepairStatusJSON "" "hi") = true ∧
    errorsNonempty (validateAndRepairStatusJSON "" "hi") = true :=
  fallback_totality_amended "" "hi" (Or.inl rfl)

end StatusBot
